import Mathlib

/-!
Verification of the `knmi_stations.py` core against its specification.

The Python source is shallowly embedded below.  IEEE-754 doubles are
idealised as rationals (`ℚ`), Python `None`/`NaN` as `Option.none`, and a
computation that raises an uncaught exception (IndexError, KeyError,
ZeroDivisionError) is modelled as `Option.none` at the call in question.
Regular-expression matching (`re.findall`), `difflib.SequenceMatcher`,
`np.linspace` and the pandas arithmetic used by the source are embedded
directly from the semantics of those library operations as exercised by the
source, as explained at each definition.
-/

namespace Knmi

/-! ## Character classes

`isSpaceC` models Python `\s` and `isDigitC` models Python `\d`, on the
ASCII range (the catalog text handled by the source is ASCII; the Unicode
extensions of `\s`/`\d` are out of scope of this model). -/

def isSpaceC (c : Char) : Bool :=
  c = ' ' || c = '\t' || c = '\n' || c = '\r' || c = '\x0b' || c = '\x0c'

def isDigitC (c : Char) : Bool :=
  48 ≤ c.toNat && c.toNat ≤ 57

/-- Numeric value of an ASCII digit character. -/
def charVal (c : Char) : ℕ := c.toNat - 48

/-! ## The coordinate parser (`degmin_to_decdeg`, source lines 21-34)

The source runs `re.findall(r"\s*(\d{2})\s*(\d{2})\s*.?\s*", string)` and
converts each captured pair `(deg, min)` to `float(deg) + float(min)/60`.

For this particular pattern Python's leftmost/greedy backtracking search is
equivalent to the deterministic procedure below: a greedy `\s*` directly
followed by a digit requirement never benefits from backtracking (giving a
whitespace character back cannot produce a digit), and the trailing
`\s*.?\s*` has no constraint after it, so each of its parts matches
greedily: all whitespace, then one non-newline character if present, then
all whitespace.  `re.findall` scans left to right, restarting one character
further on failure and at the match end on success (every match of this
pattern consumes at least four characters). -/

/-- Greedy `\s*`. -/
def skipWs : List Char → List Char
  | [] => []
  | c :: t => if isSpaceC c then skipWs t else c :: t

/-- `(\d{2})`: exactly two digit characters, returning their value. -/
def twoDigits : List Char → Option (ℕ × List Char)
  | c1 :: c2 :: r =>
    if isDigitC c1 && isDigitC c2 then some (10 * charVal c1 + charVal c2, r)
    else none
  | _ => none

/-- Greedy `.?`: one character if present and not a newline (`re.DOTALL` is
off in the source). -/
def dotq : List Char → List Char
  | [] => []
  | c :: t => if c = '\n' then c :: t else t

/-- One attempt to match `\s*(\d{2})\s*(\d{2})\s*.?\s*` at the head of `s`,
returning the captured pair and the remainder after the match. -/
def matchAt (s : List Char) : Option ((ℕ × ℕ) × List Char) :=
  match twoDigits (skipWs s) with
  | none => none
  | some (d, s2) =>
    match twoDigits (skipWs s2) with
    | none => none
    | some (m, s4) => some ((d, m), skipWs (dotq (skipWs s4)))

/-- `re.findall` scan; `fuel` bounds the number of scan steps (each step
consumes at least one character, so `s.length` fuel is always enough). -/
def findallF : ℕ → List Char → List (ℕ × ℕ)
  | 0, _ => []
  | fuel + 1, s =>
    match matchAt s with
    | some (pr, rest) => pr :: findallF fuel rest
    | none =>
      match s with
      | [] => []
      | _ :: t => findallF fuel t

/-- All `(degrees, minutes)` pairs of the pattern in `s`, in source order. -/
def findPairs (s : List Char) : List (ℕ × ℕ) := findallF s.length s

/-- `degmin_to_decdeg` (source lines 21-34): decimal degrees
`deg + min/60` for every matched pair, in source order. -/
def degmin_to_decdeg (s : String) : List ℚ :=
  (findPairs s.data).map fun p => (p.1 : ℚ) + (p.2 : ℚ) / 60

/-! ## The station catalog build (`coordtable`, source lines 36-58)

The claims concern the coordinate-conversion loop (lines 54-57): for each
already-scraped row the source runs
`frame.loc[i,var] = degmin_to_decdeg(frame.loc[i,var])[0]` for
`var ∈ {lat, lon}`.  Indexing `[0]` into an empty parse result raises an
uncaught IndexError, aborting the whole build; this abort is modelled by
`Option.none` for the whole build. -/

structure RawRow where
  sid : String
  name : String
  rtype : String
  latText : String
  lonText : String
  elevation : Option String
  deriving DecidableEq, Repr

structure Station where
  sid : String
  name : String
  rtype : String
  lat : ℚ
  lon : ℚ
  elevation : Option String
  deriving DecidableEq, Repr

/-- Conversion of one catalog row (source line 57): the first parsed value
of each coordinate field; `none` models the IndexError on an empty parse. -/
def convertRow (r : RawRow) : Option Station :=
  match (degmin_to_decdeg r.latText).head?, (degmin_to_decdeg r.lonText).head? with
  | some la, some lo => some ⟨r.sid, r.name, r.rtype, la, lo, r.elevation⟩
  | _, _ => none

/-- The conversion loop of `coordtable` (source lines 54-57) over the
scraped data rows: one IndexError aborts the whole build, so a single
failing row makes the whole result `none`. -/
def coordtable : List RawRow → Option (List Station)
  | [] => some []
  | r :: rs =>
    match convertRow r, coordtable rs with
    | some s, some cat => some (s :: cat)
    | _, _ => none

/-! ## String similarity (`difflib.SequenceMatcher(None, a, b).ratio()`)

The matcher of `table` (source line 123) scores names with CPython's
`difflib.SequenceMatcher` with `isjunk=None`.  The embedding follows the
CPython implementation:

* `b2j` maps a character to its (ascending) positions in `b`; with
  `autojunk` on (the default), characters occurring more than
  `len(b)//100 + 1` times are dropped from `b2j` when `len(b) >= 200`;
* `find_longest_match` runs the `j2len` dynamic program over `b2j`,
  recording the first block to reach each new best size, and then extends
  the block over equal adjacent characters (with `isjunk=None` the junk
  set `bjunk` is empty, so the two junk-extension loops never fire and the
  non-junk extension loops degenerate to plain equality checks);
* `ratio` is `2*M / (len(a)+len(b))` where `M` sums the sizes of the
  blocks produced by the recursive `get_matching_blocks` split (sorting
  and merging the blocks does not change the sum), and is `1.0` for two
  empty strings. -/

/-- Character of `l` at index `i` (indices are in range at every use the
model reaches, so the default is never consulted there). -/
def cAt (l : List Char) (i : ℕ) : Char := l.getD i ' '

/-- Ascending list of positions of `c` in `b`. -/
def positions (b : List Char) (c : Char) : List ℕ :=
  (List.range b.length).filter fun j => cAt b j = c

/-- The `autojunk` popularity test of `SequenceMatcher.__chain_b`. -/
def popularB (b : List Char) (c : Char) : Bool :=
  200 ≤ b.length && b.length / 100 + 1 < b.count c

/-- `b2j.get(c, [])` after the popularity purge. -/
def b2jGet (b : List Char) (c : Char) : List ℕ :=
  if popularB b c then [] else positions b c

/-- The first extension loop of `find_longest_match`: grow the block
leftwards while the preceding characters agree (the junk test is vacuous
for `isjunk=None`).  `fuel = besti` bounds the iterations. -/
def extendLeft (a b : List Char) (alo blo : ℕ) :
    ℕ → ℕ × ℕ × ℕ → ℕ × ℕ × ℕ
  | 0, st => st
  | fuel + 1, (bi, bj, bs) =>
    if alo < bi ∧ blo < bj ∧ cAt a (bi - 1) = cAt b (bj - 1) then
      extendLeft a b alo blo fuel (bi - 1, bj - 1, bs + 1)
    else (bi, bj, bs)

/-- The second extension loop of `find_longest_match`: grow the block
rightwards while the following characters agree.  `fuel = ahi` bounds the
iterations. -/
def extendRight (a b : List Char) (ahi bhi : ℕ) :
    ℕ → ℕ × ℕ × ℕ → ℕ × ℕ × ℕ
  | 0, st => st
  | fuel + 1, (bi, bj, bs) =>
    if bi + bs < ahi ∧ bj + bs < bhi ∧ cAt a (bi + bs) = cAt b (bj + bs) then
      extendRight a b ahi bhi fuel (bi, bj, bs + 1)
    else (bi, bj, bs)

/-- `SequenceMatcher.find_longest_match(alo, ahi, blo, bhi)`: the `j2len`
dynamic program (looking rows up in the previous row's map, updating the
best on strict improvement only, so the earliest best block wins), then
the extension loops.  The `continue`/`break` pair over the ascending
position list is the `filter`/`takeWhile` below. -/
def findLongestMatch (a b : List Char) (alo ahi blo bhi : ℕ) : ℕ × ℕ × ℕ :=
  let dp :=
    (List.range' alo (ahi - alo)).foldl
      (fun (st : (ℕ → ℕ) × ℕ × ℕ × ℕ) i =>
        let js := ((b2jGet b (cAt a i)).filter fun j => blo ≤ j).takeWhile
          fun j => j < bhi
        js.foldl
          (fun (st2 : (ℕ → ℕ) × ℕ × ℕ × ℕ) j =>
            let k := (if j = 0 then 0 else st.1 (j - 1)) + 1
            let nj := fun x => if x = j then k else st2.1 x
            if st2.2.2.2 < k then (nj, i + 1 - k, j + 1 - k, k)
            else (nj, st2.2))
          ((fun _ => 0), st.2))
      ((fun _ => 0), alo, blo, 0)
  let st := extendLeft a b alo blo dp.2.1 dp.2
  extendRight a b ahi bhi ahi st

/-- Total size of the matching blocks found by the recursive
`get_matching_blocks` split; only the sum is needed for `ratio`.  Each
recursive call strictly shrinks `(ahi-alo) + (bhi-blo)`, so
`fuel = len(a)+len(b)` never runs out on the top-level call. -/
def matchTotal (a b : List Char) : ℕ → ℕ → ℕ → ℕ → ℕ → ℕ
  | 0, _, _, _, _ => 0
  | fuel + 1, alo, ahi, blo, bhi =>
    let m := findLongestMatch a b alo ahi blo bhi
    if m.2.2 = 0 then 0
    else
      m.2.2 +
        (if alo < m.1 ∧ blo < m.2.1 then matchTotal a b fuel alo m.1 blo m.2.1
         else 0) +
        (if m.1 + m.2.2 < ahi ∧ m.2.1 + m.2.2 < bhi then
          matchTotal a b fuel (m.1 + m.2.2) ahi (m.2.1 + m.2.2) bhi
         else 0)

/-- `difflib.SequenceMatcher(None, a, b).ratio()`. -/
def ratio (a b : String) : ℚ :=
  let la := a.data.length
  let lb := b.data.length
  if la + lb = 0 then 1
  else 2 * (matchTotal a.data b.data (la + lb) 0 la 0 lb : ℚ) / ((la : ℚ) + lb)

/-! ## The station matcher (inside `table`, source lines 110-129) -/

/-- The alias pre-substitution (source lines 110-117): the loop over
`modify_names = {"Den Helder": "De Kooy", "Eelde": "Groningen"}` replaces
the name on exact equality with a key, checking the keys in insertion
order. -/
def aliasName (s : String) : String :=
  let s1 := if s = "Den Helder" then "De Kooy" else s
  if s1 = "Eelde" then "Groningen" else s1

/-- The best-match scan (source lines 120-126): `maxsim = 0`,
`maxind = -1`, update on strictly greater similarity.  `c` is the running
catalog position, `ms`/`mi` the running best score and index; the `-1`
sentinel is `none`. -/
def bestAux (name : String) : List String → ℚ → Option ℕ → ℕ → ℚ × Option ℕ
  | [], ms, mi, _ => (ms, mi)
  | nm :: rest, ms, mi, c =>
    if ms < ratio name nm then bestAux name rest (ratio name nm) (some c) (c + 1)
    else bestAux name rest ms mi (c + 1)

/-- Index of the catalog entry the scan selects for `name`; `none` models
the KeyError of `coords.loc[-1]` when every similarity score is 0 (the
sentinel is never replaced). -/
def bestIndex (name : String) (names : List String) : Option ℕ :=
  (bestAux name names 0 none 0).2

/-- One measurement row's full matching step (source lines 110-129):
alias pre-substitution, then the similarity scan. -/
def matchStation (rowName : String) (names : List String) : Option ℕ :=
  bestIndex (aliasName rowName) names

/-! ## Inverse distance weighting (`idw`, source lines 184-194)

One observation row carries the planar point coordinates of its station
(the `coords` column, `(lon, lat)`) and the value of the interpolation
column; a pandas `NaN`/null value is `none`.

The source computes `dist = distance(Point(x,y), data)` (planar Euclidean
distances), `weights = (dist==0)` (a boolean indicator series), falls back
to `weights = dist.apply(lambda d: 1/d**p)` when no distance is zero, and
returns `sum(weights*data[column])/sum(weights)` with Python's builtin
`sum`.  Consequences embedded below:

* `dist == 0` is decided on the squared distance (`sqrt s = 0 ↔ s = 0`),
  which is rational, so the zero test is exact;
* the fallback weight `1/d**p` is `1/(sqrt s)**p` of the squared distance
  `s`; a real power with the caller-supplied float `p` (default `4.5`) has
  no rational closed form, so the weight function on squared distances is
  a parameter `wfun` of the embedding (`fun s => 1/s` is exactly `p = 2`);
  every such function is positive on positive arguments, which is the only
  property the source relies on;
* `weights*data[column]` multiplies elementwise and IEEE arithmetic gives
  `0 * NaN = NaN` and `NaN + v = NaN`, so the builtin `sum` of the
  products is `NaN` as soon as ANY observation's value is null — also in
  the zero-distance branch, where non-coincident stations get weight
  `False = 0`; `sumProd` embeds this by propagating `none`;
* `NaN/den` is `NaN`, and the division `0/0` on an empty table raises
  `ZeroDivisionError`; both are `none` in the embedding. -/

structure Obs where
  x : ℚ
  y : ℚ
  value : Option ℚ
  deriving DecidableEq, Repr

instance : Inhabited Obs := ⟨⟨0, 0, none⟩⟩

/-- Squared planar Euclidean distance from the query point to one
observation (`Point(x,y).distance` squared). -/
def distSq (qx qy : ℚ) (o : Obs) : ℚ := (qx - o.x) ^ 2 + (qy - o.y) ^ 2

/-- `sum(weights*values)` with builtin `sum` over the elementwise product:
any null value makes the total `NaN` (`none`). -/
def sumProd (ws : List ℚ) (vs : List (Option ℚ)) : Option ℚ :=
  (ws.zip vs).foldr
    (fun p acc =>
      match p.2, acc with
      | some v, some t => some (p.1 * v + t)
      | _, _ => none)
    (some 0)

/-- `idw(data, x, y, p, column)` (source lines 184-194); `wfun` is the
fallback weight on squared distances as explained above. -/
def idw (data : List Obs) (x y : ℚ) (wfun : ℚ → ℚ) : Option ℚ :=
  let dists := data.map (distSq x y)
  let zeroW : List ℚ := dists.map fun d => if d = 0 then 1 else 0
  let weights := if zeroW.sum = 0 then dists.map wfun else zeroW
  if weights.sum = 0 then none
  else (sumProd weights (data.map Obs.value)).map fun t => t / weights.sum

/-! ## The sampling grid (inside `contour`, source lines 217-224)

`x = np.linspace(minx, maxx, n)`, `y = np.linspace(miny, maxy, n)` (the
source instantiates the resolution at `n = 100` and takes the bounding box
from the region geometry), then `z[i][j] = impute_f(data, x[j], y[i],
column)` with `i` ranging over `y` and `j` over `x`.  `np.linspace` with
`endpoint=True` places point `i` at `lo + i*(hi-lo)/(n-1)`. -/

def linspace (lo hi : ℚ) (n : ℕ) : List ℚ :=
  (List.range n).map fun i : ℕ => lo + (i : ℚ) * ((hi - lo) / ((n : ℚ) - 1))

/-- The imputation double loop of `contour`: row `i` is the `y` value,
column `j` the `x` value; `impute` is `impute_f(data, ·, ·, column)`. -/
def contourGrid (impute : ℚ → ℚ → Option ℚ) (minx maxx miny maxy : ℚ)
    (n : ℕ) : List (List (Option ℚ)) :=
  (linspace miny maxy n).map fun yv =>
    (linspace minx maxx n).map fun xv => impute xv yv

/-! ## Well-formed coordinate text

Rendering used to state the corrected contract of the coordinate parser:
a two-digit group for each number and the `", "` separator between pairs
(the pattern's trailing `\s*.?\s*` consumes the separator together with
the match, which is what makes consecutive pairs parse; pairs separated by
whitespace alone do not, see `claim_C2_counterexample` and the statement
of `claim_C2`). -/

/-- The two-digit rendering of `n < 100`. -/
def render2 (n : ℕ) : List Char :=
  [Char.ofNat (48 + n / 10), Char.ofNat (48 + n % 10)]

/-- `"DD MM"` for one degree/minute pair. -/
def renderPair (p : ℕ × ℕ) : List Char :=
  render2 p.1 ++ ' ' :: render2 p.2

/-- Degree/minute pairs joined by `", "`. -/
def renderPairs : List (ℕ × ℕ) → List Char
  | [] => []
  | [p] => renderPair p
  | p :: ps => renderPair p ++ ',' :: ' ' :: renderPairs ps

/-! ## Concrete inputs used by the counterexamples -/

/-- Two stations: one at the query point with value `10`, one elsewhere
with a null value. -/
def dataC1 : List Obs := [⟨0, 0, some 10⟩, ⟨1, 1, none⟩]

/-- Two stations at positive distance from the query point `(2,0)`, one
with value `10`, one with a null value. -/
def dataC3 : List Obs := [⟨0, 0, some 10⟩, ⟨1, 0, none⟩]

/-- A catalog row whose latitude field contains no degree/minute pair. -/
def badRowC8 : RawRow := ⟨"392", "Herwijnen", "AWS", "unknown", "05 36", none⟩

/-- Two catalog rows with the same station id, the first with a latitude
text of `95` degrees. -/
def rowsC9 : List RawRow :=
  [⟨"001", "A", "AWS", "95 10", "05 30", none⟩,
   ⟨"001", "B", "AWS", "52 10", "05 30", none⟩]

/-- The full conclusion of claim C5 for a resolution `n` and a bounding
box, about `linspace` and `contourGrid`: vector lengths, the evenly
spaced coordinate formula, inclusive endpoints, matrix shape, and
`matrix[i][j] = impute x[j] y[i]`. -/
def gridSpec (impute : ℚ → ℚ → Option ℚ) (minx maxx miny maxy : ℚ)
    (n : ℕ) : Prop :=
  (linspace minx maxx n).length = n ∧
  (linspace miny maxy n).length = n ∧
  (∀ j, j < n → (linspace minx maxx n).get? j =
    some (minx + (j : ℚ) * ((maxx - minx) / ((n : ℚ) - 1)))) ∧
  (∀ i, i < n → (linspace miny maxy n).get? i =
    some (miny + (i : ℚ) * ((maxy - miny) / ((n : ℚ) - 1)))) ∧
  (linspace minx maxx n).get? 0 = some minx ∧
  (linspace minx maxx n).get? (n - 1) = some maxx ∧
  (linspace miny maxy n).get? 0 = some miny ∧
  (linspace miny maxy n).get? (n - 1) = some maxy ∧
  (contourGrid impute minx maxx miny maxy n).length = n ∧
  (∀ i, i < n → ∃ row, (contourGrid impute minx maxx miny maxy n).get? i =
    some row ∧ row.length = n) ∧
  (∀ i j, i < n → j < n →
    ((contourGrid impute minx maxx miny maxy n).get? i).bind
        (fun row => row.get? j) =
      some (impute (minx + (j : ℚ) * ((maxx - minx) / ((n : ℚ) - 1)))
        (miny + (i : ℚ) * ((maxy - miny) / ((n : ℚ) - 1)))))

/-! ## Lemmas about the coordinate parser -/

lemma skipWs_length_le (s : List Char) : (skipWs s).length ≤ s.length := by
  induction s with
  | nil => simp [skipWs]
  | cons c t ih =>
    simp only [skipWs]
    split
    · exact ih.trans (by simp)
    · simp

lemma skipWs_subset (s : List Char) : ∀ c ∈ skipWs s, c ∈ s := by
  induction s with
  | nil => simp [skipWs]
  | cons c t ih =>
    simp only [skipWs]
    split
    · exact fun x hx => List.mem_cons_of_mem _ (ih x hx)
    · exact fun x hx => hx

lemma twoDigits_length {s r : List Char} {n : ℕ} (h : twoDigits s = some (n, r)) :
    r.length + 2 = s.length := by
  match s with
  | [] => simp [twoDigits] at h
  | [c] => simp [twoDigits] at h
  | c1 :: c2 :: t =>
    simp only [twoDigits] at h
    split at h
    · simp at h
      simp [← h.2]
    · simp at h

lemma twoDigits_le {s r : List Char} {n : ℕ} (h : twoDigits s = some (n, r)) :
    n ≤ 99 := by
  match s with
  | [] => simp [twoDigits] at h
  | [c] => simp [twoDigits] at h
  | c1 :: c2 :: t =>
    simp only [twoDigits] at h
    split at h
    · next hd =>
      simp at h
      rw [Bool.and_eq_true] at hd
      have h1 : charVal c1 ≤ 9 := by
        have := hd.1
        simp [isDigitC] at this
        simp [charVal]
        omega
      have h2 : charVal c2 ≤ 9 := by
        have := hd.2
        simp [isDigitC] at this
        simp [charVal]
        omega
      omega
    · simp at h

lemma dotq_length_le (s : List Char) : (dotq s).length ≤ s.length := by
  match s with
  | [] => simp [dotq]
  | c :: t =>
    simp only [dotq]
    split <;> simp

lemma matchAt_length {s r : List Char} {pr : ℕ × ℕ} (h : matchAt s = some (pr, r)) :
    r.length < s.length := by
  simp only [matchAt] at h
  split at h
  · simp at h
  · next d s2 h1 =>
    split at h
    · simp at h
    · next m s4 h2 =>
      simp at h
      have e1 := twoDigits_length h1
      have e2 := twoDigits_length h2
      have l1 := skipWs_length_le s
      have l2 := skipWs_length_le s2
      have l3 := skipWs_length_le s4
      have l4 := dotq_length_le (skipWs s4)
      have l5 := skipWs_length_le (dotq (skipWs s4))
      have : r = skipWs (dotq (skipWs s4)) := by rw [← h.2]
      subst this
      omega

lemma matchAt_le {s r : List Char} {d m : ℕ} (h : matchAt s = some ((d, m), r)) :
    d ≤ 99 ∧ m ≤ 99 := by
  simp only [matchAt] at h
  split at h
  · simp at h
  · next d' s2 h1 =>
    split at h
    · simp at h
    · next m' s4 h2 =>
      simp at h
      obtain ⟨⟨hd, hm⟩, -⟩ := h
      subst hd; subst hm
      exact ⟨twoDigits_le h1, twoDigits_le h2⟩

lemma matchAt_nil : matchAt [] = none := rfl

lemma findallF_fuel_eq : ∀ (f1 f2 : ℕ) (s : List Char),
    s.length ≤ f1 → s.length ≤ f2 → findallF f1 s = findallF f2 s := by
  intro f1
  induction f1 with
  | zero =>
    intro f2 s h1 _
    have : s = [] := List.length_eq_zero.mp (Nat.le_zero.mp h1)
    subst this
    cases f2 with
    | zero => rfl
    | succ f2 => simp [findallF, matchAt_nil]
  | succ f1 ih =>
    intro f2 s h1 h2
    cases f2 with
    | zero =>
      have : s = [] := List.length_eq_zero.mp (Nat.le_zero.mp h2)
      subst this
      simp [findallF, matchAt_nil]
    | succ f2 =>
      simp only [findallF]
      cases hm : matchAt s with
      | some v =>
        obtain ⟨pr, rest⟩ := v
        have hlt := matchAt_length hm
        simp only
        rw [ih f2 rest (by omega) (by omega)]
      | none =>
        cases s with
        | nil => rfl
        | cons c t =>
          simp only
          exact ih f2 t (by simp at h1 ⊢; omega) (by simp at h2 ⊢; omega)

lemma findPairs_cons_of_matchAt {s rest : List Char} {pr : ℕ × ℕ}
    (h : matchAt s = some (pr, rest)) :
    findPairs s = pr :: findPairs rest := by
  have hlt := matchAt_length h
  unfold findPairs
  cases hs : s.length with
  | zero =>
    have : s = [] := List.length_eq_zero.mp hs
    subst this
    simp [matchAt_nil] at h
  | succ k =>
    simp only [findallF, h]
    rw [findallF_fuel_eq k rest.length rest (by omega) (le_refl _)]

lemma findPairs_mem_le {s : List Char} {p : ℕ × ℕ} (hp : p ∈ findPairs s) :
    p.1 ≤ 99 ∧ p.2 ≤ 99 := by
  unfold findPairs at hp
  generalize hf : s.length = fuel at hp
  clear hf
  induction fuel generalizing s with
  | zero => simp [findallF] at hp
  | succ fuel ih =>
    simp only [findallF] at hp
    split at hp
    · next pr rest hm =>
      rcases List.mem_cons.mp hp with h | h
      · subst h
        obtain ⟨d, m⟩ := p
        exact matchAt_le hm
      · exact ih h
    · split at hp
      · simp at hp
      · exact ih hp

lemma degmin_mem_bounds {s : String} {x : ℚ} (hx : x ∈ degmin_to_decdeg s) :
    0 ≤ x ∧ x ≤ 99 + 99 / 60 := by
  unfold degmin_to_decdeg at hx
  obtain ⟨p, hp, hpx⟩ := List.mem_map.mp hx
  obtain ⟨h1, h2⟩ := findPairs_mem_le hp
  subst hpx
  constructor
  · positivity
  · have c1 : (p.1 : ℚ) ≤ 99 := by exact_mod_cast Nat.cast_le.mpr h1
    have c2 : (p.2 : ℚ) ≤ 99 := by exact_mod_cast Nat.cast_le.mpr h2
    have : (p.2 : ℚ) / 60 ≤ 99 / 60 := by
      apply div_le_div_of_nonneg_right c2
      norm_num
    linarith

/-! ## Lemmas about rendered degree/minute text -/

lemma digitChar_facts : ∀ k, k < 10 →
    isDigitC (Char.ofNat (48 + k)) = true ∧
    isSpaceC (Char.ofNat (48 + k)) = false ∧
    charVal (Char.ofNat (48 + k)) = k := by decide

lemma skipWs_cons_digit {c : Char} (h : isSpaceC c = false) (t : List Char) :
    skipWs (c :: t) = c :: t := by
  simp [skipWs, h]

lemma skipWs_cons_space {c : Char} (h : isSpaceC c = true) (t : List Char) :
    skipWs (c :: t) = skipWs t := by
  simp [skipWs, h]

lemma render2_head_not_space {n : ℕ} (h : n < 100) (r : List Char) :
    skipWs (render2 n ++ r) = render2 n ++ r := by
  have hd := digitChar_facts (n / 10) (by omega)
  simp only [render2, List.cons_append, List.nil_append]
  exact skipWs_cons_digit hd.2.1 _

lemma twoDigits_render2 {n : ℕ} (h : n < 100) (r : List Char) :
    twoDigits (render2 n ++ r) = some (n, r) := by
  have h1 := digitChar_facts (n / 10) (by omega)
  have h2 := digitChar_facts (n % 10) (by omega)
  simp only [render2, List.cons_append, List.nil_append, twoDigits]
  rw [if_pos (by rw [h1.1, h2.1]; rfl)]
  rw [h1.2.2, h2.2.2]
  congr 1
  congr 1
  omega

lemma twoDigits_none_of_not_digit {c : Char} (h : isDigitC c = false)
    (t : List Char) : twoDigits (c :: t) = none := by
  cases t with
  | nil => rfl
  | cons c2 t2 => simp [twoDigits, h]

lemma matchAt_renderPair {d m : ℕ} (hd : d < 100) (hm : m < 100) (r : List Char) :
    matchAt (render2 d ++ (' ' :: (render2 m ++ r))) =
      some ((d, m), skipWs (dotq (skipWs r))) := by
  unfold matchAt
  rw [render2_head_not_space hd, twoDigits_render2 hd]
  dsimp only
  rw [skipWs_cons_space (by decide)]
  rw [render2_head_not_space hm, twoDigits_render2 hm]

lemma renderPairs_head_not_space {p : ℕ × ℕ} (hp : p.1 < 100) (ps : List (ℕ × ℕ)) :
    skipWs (renderPairs (p :: ps)) = renderPairs (p :: ps) := by
  cases ps with
  | nil =>
    simp only [renderPairs, renderPair, List.cons_append, List.append_assoc]
    exact render2_head_not_space hp _
  | cons q qs =>
    simp only [renderPairs, renderPair, List.cons_append, List.append_assoc]
    exact render2_head_not_space hp _

lemma findPairs_renderPairs : ∀ (ps : List (ℕ × ℕ)),
    (∀ p ∈ ps, p.1 < 100 ∧ p.2 < 100) → findPairs (renderPairs ps) = ps := by
  intro ps
  induction ps with
  | nil => intro _; rfl
  | cons p ps ih =>
    intro hb
    obtain ⟨hp1, hp2⟩ := hb p (List.mem_cons_self _ _)
    cases ps with
    | nil =>
      have hmatch : matchAt (renderPairs [p]) = some ((p.1, p.2), []) := by
        have base := matchAt_renderPair hp1 hp2 []
        simpa only [renderPairs, renderPair, List.cons_append, List.append_assoc,
          List.append_nil] using base
      rw [findPairs_cons_of_matchAt hmatch]
      rfl
    | cons q qs =>
      have hq1 := (hb q (by simp)).1
      have hmatch : matchAt (renderPairs (p :: q :: qs)) =
          some ((p.1, p.2), renderPairs (q :: qs)) := by
        have base := matchAt_renderPair hp1 hp2 (',' :: (' ' :: renderPairs (q :: qs)))
        rw [skipWs_cons_digit (by decide)] at base
        rw [show dotq (',' :: (' ' :: renderPairs (q :: qs))) =
          ' ' :: renderPairs (q :: qs) from by simp [dotq]] at base
        rw [skipWs_cons_space (by decide), renderPairs_head_not_space hq1] at base
        simpa only [renderPairs, renderPair, List.cons_append, List.append_assoc]
          using base
      rw [findPairs_cons_of_matchAt hmatch]
      rw [ih (fun x hx => hb x (List.mem_cons_of_mem _ hx))]

lemma findPairs_no_digit {s : List Char} (h : ∀ c ∈ s, isDigitC c = false) :
    findPairs s = [] := by
  unfold findPairs
  generalize s.length = fuel
  induction fuel generalizing s with
  | zero => rfl
  | succ fuel ih =>
    have hm : matchAt s = none := by
      unfold matchAt
      cases hs : skipWs s with
      | nil => rfl
      | cons c t =>
        have hc : c ∈ s := skipWs_subset s c (hs ▸ List.mem_cons_self c t)
        rw [twoDigits_none_of_not_digit (h c hc)]
    simp only [findallF, hm]
    cases s with
    | nil => rfl
    | cons c t => exact ih fun x hx => h x (List.mem_cons_of_mem _ hx)

/-! ## Lemmas about the best-match scan -/

lemma bestAux_stay (name : String) : ∀ (l : List String) (ms : ℚ) (mi : Option ℕ) (c : ℕ),
    (∀ j, j < l.length → ratio name (l.getD j "") ≤ ms) →
    bestAux name l ms mi c = (ms, mi) := by
  intro l
  induction l with
  | nil => intro ms mi c _; rfl
  | cons nm rest ih =>
    intro ms mi c hle
    have h0 : ratio name nm ≤ ms := by
      have := hle 0 (by simp)
      simpa using this
    rw [bestAux, if_neg (by exact not_lt.mpr h0)]
    exact ih ms mi (c + 1) fun j hj => by
      have := hle (j + 1) (by simpa using Nat.succ_lt_succ hj)
      simpa using this

lemma bestAux_improve (name : String) :
    ∀ (l : List String) (ms : ℚ) (mi : Option ℕ) (c : ℕ),
    (∃ j, j < l.length ∧ ms < ratio name (l.getD j "")) →
    ∃ k, k < l.length ∧
      bestAux name l ms mi c = (ratio name (l.getD k ""), some (c + k)) ∧
      (∀ j, j < l.length → ratio name (l.getD j "") ≤ ratio name (l.getD k "")) ∧
      (∀ j, j < k → ratio name (l.getD j "") < ratio name (l.getD k "")) ∧
      ms < ratio name (l.getD k "") := by
  intro l
  induction l with
  | nil =>
    intro ms mi c h
    obtain ⟨j, hj, -⟩ := h
    simp at hj
  | cons nm rest ih =>
    intro ms mi c h
    by_cases h0 : ms < ratio name nm
    · rw [bestAux, if_pos h0]
      by_cases h1 : ∃ j, j < rest.length ∧ ratio name nm < ratio name (rest.getD j "")
      · obtain ⟨k, hk, heq, hmax, hfirst, hgt⟩ :=
          ih (ratio name nm) (some c) (c + 1) h1
        refine ⟨k + 1, by simpa using Nat.succ_lt_succ hk, ?_, ?_, ?_, ?_⟩
        · rw [heq, List.getD_cons_succ, show c + 1 + k = c + (k + 1) from by omega]
        · intro j hj
          cases j with
          | zero => simpa using le_of_lt hgt
          | succ j => exact hmax j (by simpa using Nat.lt_of_succ_lt_succ hj)
        · intro j hj
          cases j with
          | zero => simpa using hgt
          | succ j => exact hfirst j (Nat.lt_of_succ_lt_succ hj)
        · simpa using lt_trans h0 hgt
      · push_neg at h1
        have hstay := bestAux_stay name rest (ratio name nm) (some c) (c + 1)
          fun j hj => h1 j hj
        refine ⟨0, by simp, ?_, ?_, ?_, ?_⟩
        · simpa using hstay
        · intro j hj
          cases j with
          | zero => simp
          | succ j => simpa using h1 j (by simpa using Nat.lt_of_succ_lt_succ hj)
        · intro j hj
          omega
        · simpa using h0
    · rw [bestAux, if_neg h0]
      have h1 : ∃ j, j < rest.length ∧ ms < ratio name (rest.getD j "") := by
        obtain ⟨j, hj, hgt⟩ := h
        cases j with
        | zero => simp at hgt; exact absurd hgt h0
        | succ j =>
          exact ⟨j, by simpa using Nat.lt_of_succ_lt_succ hj, by simpa using hgt⟩
      obtain ⟨k, hk, heq, hmax, hfirst, hgt⟩ := ih ms mi (c + 1) h1
      refine ⟨k + 1, by simpa using Nat.succ_lt_succ hk, ?_, ?_, ?_, ?_⟩
      · rw [heq, List.getD_cons_succ, show c + 1 + k = c + (k + 1) from by omega]
      · intro j hj
        cases j with
        | zero =>
          simp only [List.getD_cons_zero]
          exact le_of_lt (lt_of_le_of_lt (not_lt.mp h0) (by simpa using hgt))
        | succ j => exact hmax j (by simpa using Nat.lt_of_succ_lt_succ hj)
      · intro j hj
        cases j with
        | zero =>
          simp only [List.getD_cons_zero]
          exact lt_of_le_of_lt (not_lt.mp h0) (by simpa using hgt)
        | succ j => exact hfirst j (Nat.lt_of_succ_lt_succ hj)
      · simpa using hgt

/-! ## Lemmas about the weighted average -/

lemma sumProd_nil (vs : List (Option ℚ)) : sumProd [] vs = some 0 := rfl

lemma sumProd_cons (w : ℚ) (ws : List ℚ) (v : Option ℚ) (vs : List (Option ℚ)) :
    sumProd (w :: ws) (v :: vs) =
      match v, sumProd ws vs with
      | some x, some t => some (w * x + t)
      | _, _ => none := rfl

lemma sumProd_none_iff : ∀ (ws : List ℚ) (vs : List (Option ℚ)),
    ws.length = vs.length → (sumProd ws vs = none ↔ none ∈ vs) := by
  intro ws
  induction ws with
  | nil =>
    intro vs hl
    have : vs = [] := List.length_eq_zero.mp (by simpa using hl.symm)
    subst this
    simp [sumProd_nil]
  | cons w ws ih =>
    intro vs hl
    cases vs with
    | nil => simp at hl
    | cons v vt =>
      rw [sumProd_cons]
      cases v with
      | none => simp
      | some x =>
        cases hs : sumProd ws vt with
        | none =>
          simp only [List.mem_cons]
          have := (ih vt (by simpa using hl)).mp hs
          simp [this]
        | some t =>
          simp only [List.mem_cons]
          constructor
          · intro hh; simp at hh
          · intro hh
            rcases hh with hh | hh
            · simp at hh
            · exact absurd ((ih vt (by simpa using hl)).mpr hh) (by simp [hs])

lemma sumProd_map_some : ∀ (ws vs : List ℚ),
    sumProd ws (vs.map some) =
      some ((ws.zip vs).foldr (fun p t => p.1 * p.2 + t) 0) := by
  intro ws
  induction ws with
  | nil => intro vs; simp [sumProd_nil]
  | cons w ws ih =>
    intro vs
    cases vs with
    | nil => rfl
    | cons v vt => simp [sumProd_cons, ih vt]

lemma sumProd_zero_weights : ∀ (ws : List ℚ) (vs : List (Option ℚ)),
    (∀ w ∈ ws, w = 0) → ws.length = vs.length → ¬ none ∈ vs →
    sumProd ws vs = some 0 := by
  intro ws
  induction ws with
  | nil =>
    intro vs _ hl _
    have : vs = [] := List.length_eq_zero.mp (by simpa using hl.symm)
    subst this
    rfl
  | cons w ws ih =>
    intro vs hz hl hn
    cases vs with
    | nil => simp at hl
    | cons v vt =>
      cases v with
      | none => simp at hn
      | some x =>
        rw [sumProd_cons, ih vt (fun u hu => hz u (List.mem_cons_of_mem _ hu))
          (by simpa using hl) (fun hc => hn (List.mem_cons_of_mem _ hc))]
        have hw : w = 0 := hz w (List.mem_cons_self _ _)
        simp [hw]

lemma list_sum_pos : ∀ (l : List ℚ), (∀ x ∈ l, 0 < x) → l ≠ [] → 0 < l.sum := by
  intro l
  induction l with
  | nil => intro _ h; exact absurd rfl h
  | cons x t ih =>
    intro hp _
    rw [List.sum_cons]
    have hx := hp x (List.mem_cons_self _ _)
    cases t with
    | nil => simpa using hx
    | cons y u =>
      have ht := ih (fun z hz => hp z (List.mem_cons_of_mem _ hz)) (by simp)
      linarith

lemma list_sum_zero_all_zero : ∀ (l : List ℚ), (∀ x ∈ l, 0 ≤ x) → l.sum = 0 →
    ∀ x ∈ l, x = 0 := by
  intro l
  induction l with
  | nil => simp
  | cons x t ih =>
    intro hn hs y hy
    rw [List.sum_cons] at hs
    have hx := hn x (List.mem_cons_self _ _)
    have ht : 0 ≤ t.sum := List.sum_nonneg fun z hz => hn z (List.mem_cons_of_mem _ hz)
    have hx0 : x = 0 := by linarith
    have hts : t.sum = 0 := by linarith
    rcases List.mem_cons.mp hy with h | h
    · rw [h, hx0]
    · exact ih (fun z hz => hn z (List.mem_cons_of_mem _ hz)) hts y h

lemma distSq_nonneg (qx qy : ℚ) (o : Obs) : 0 ≤ distSq qx qy o := by
  unfold distSq
  positivity

lemma idw_zero_branch_eq (data : List Obs) (x y : ℚ) (wfun : ℚ → ℚ)
    (hne : ((data.map (distSq x y)).map fun d => if d = 0 then (1 : ℚ) else 0).sum ≠ 0) :
    idw data x y wfun =
      (sumProd ((data.map (distSq x y)).map fun d => if d = 0 then (1 : ℚ) else 0)
          (data.map Obs.value)).map
        (fun t => t / ((data.map (distSq x y)).map fun d => if d = 0 then (1 : ℚ) else 0).sum) := by
  unfold idw
  simp only [if_neg hne]

lemma idw_cons_skip {o : Obs} {t : List Obs} {x y : ℚ} (wfun : ℚ → ℚ)
    (ho : distSq x y o ≠ 0) (hv : o.value ≠ none)
    (hz : ∃ u ∈ t, distSq x y u = 0) :
    idw (o :: t) x y wfun = idw t x y wfun := by
  have hzsum : 0 < ((t.map (distSq x y)).map fun d => if d = 0 then (1 : ℚ) else 0).sum := by
    obtain ⟨u, hu, hu0⟩ := hz
    have hmem : (1 : ℚ) ∈ (t.map (distSq x y)).map fun d => if d = 0 then (1 : ℚ) else 0 := by
      rw [List.map_map]
      exact List.mem_map.mpr ⟨u, hu, by simp [Function.comp, hu0]⟩
    have hnn : ∀ z ∈ (t.map (distSq x y)).map fun d => if d = 0 then (1 : ℚ) else 0, 0 ≤ z := by
      intro z hzz
      obtain ⟨d, -, hd⟩ := List.mem_map.mp hzz
      subst hd
      split <;> norm_num
    have := List.single_le_sum hnn 1 hmem
    linarith
  have hkey : ((o :: t).map (distSq x y)).map (fun d => if d = 0 then (1 : ℚ) else 0) =
      (0 : ℚ) :: (t.map (distSq x y)).map fun d => if d = 0 then (1 : ℚ) else 0 := by
    simp [if_neg ho]
  have hne2 : (((o :: t).map (distSq x y)).map fun d => if d = 0 then (1 : ℚ) else 0).sum ≠ 0 := by
    rw [hkey]
    simp only [List.sum_cons, zero_add]
    exact ne_of_gt hzsum
  rw [idw_zero_branch_eq _ _ _ _ hne2, idw_zero_branch_eq _ _ _ _ (ne_of_gt hzsum)]
  rw [hkey]
  simp only [List.sum_cons, zero_add, List.map_cons]
  obtain ⟨v, hv'⟩ := Option.ne_none_iff_exists'.mp hv
  rw [hv', sumProd_cons]
  cases hs : sumProd ((t.map (distSq x y)).map fun d => if d = 0 then (1 : ℚ) else 0) (t.map Obs.value) with
  | none => rfl
  | some tt => simp

lemma linspace_length (lo hi : ℚ) (n : ℕ) : (linspace lo hi n).length = n := by
  unfold linspace
  rw [List.length_map, List.length_range]

lemma linspace_get? {j n : ℕ} (lo hi : ℚ) (h : j < n) :
    (linspace lo hi n).get? j = some (lo + (j : ℚ) * ((hi - lo) / ((n : ℚ) - 1))) := by
  unfold linspace
  rw [List.get?_map, List.get?_range h]
  rfl

lemma coordtable_mem : ∀ (rows : List RawRow) (cat : List Station),
    coordtable rows = some cat → ∀ s ∈ cat, ∃ r ∈ rows, convertRow r = some s := by
  intro rows
  induction rows with
  | nil =>
    intro cat h s hs
    simp only [coordtable, Option.some.injEq] at h
    subst h
    simp at hs
  | cons r rs ih =>
    intro cat h s hs
    simp only [coordtable] at h
    cases hc : convertRow r with
    | none => rw [hc] at h; simp at h
    | some st =>
      rw [hc] at h
      cases hrest : coordtable rs with
      | none => rw [hrest] at h; simp at h
      | some cat' =>
        rw [hrest] at h
        simp only [Option.some.injEq] at h
        subst h
        rcases List.mem_cons.mp hs with hh | hh
        · exact ⟨r, List.mem_cons_self _ _, by rw [hc, hh]⟩
        · obtain ⟨r', hr', he⟩ := ih cat' hrest s hh
          exact ⟨r', List.mem_cons_of_mem _ hr', he⟩

lemma coordtable_none : ∀ (rows : List RawRow),
    (∃ r ∈ rows, convertRow r = none) → coordtable rows = none := by
  intro rows
  induction rows with
  | nil =>
    intro h
    obtain ⟨r, hr, -⟩ := h
    simp at hr
  | cons r rs ih =>
    intro h
    obtain ⟨r', hr', hc'⟩ := h
    simp only [coordtable]
    rcases List.mem_cons.mp hr' with hh | hh
    · subst hh
      rw [hc']
    · rw [ih ⟨r', hh, hc'⟩]
      cases convertRow r <;> rfl

lemma idw_pos_branch_eq (data : List Obs) (x y : ℚ) (wfun : ℚ → ℚ)
    (hz : ((data.map (distSq x y)).map fun d => if d = 0 then (1 : ℚ) else 0).sum = 0) :
    idw data x y wfun =
      if ((data.map (distSq x y)).map wfun).sum = 0 then none
      else (sumProd ((data.map (distSq x y)).map wfun) (data.map Obs.value)).map
        fun t => t / ((data.map (distSq x y)).map wfun).sum := by
  unfold idw
  simp only [if_pos hz]

lemma dot_bounds (lo hi : ℚ) : ∀ (ws vs : List ℚ), ws.length = vs.length →
    (∀ w ∈ ws, 0 ≤ w) → (∀ v ∈ vs, lo ≤ v ∧ v ≤ hi) →
    lo * ws.sum ≤ (ws.zip vs).foldr (fun p t => p.1 * p.2 + t) 0 ∧
    (ws.zip vs).foldr (fun p t => p.1 * p.2 + t) 0 ≤ hi * ws.sum := by
  intro ws
  induction ws with
  | nil =>
    intro vs _ _ _
    simp
  | cons w wt ih =>
    intro vs hlen hw hv
    cases vs with
    | nil => simp at hlen
    | cons v vt =>
      have hw0 : 0 ≤ w := hw w (List.mem_cons_self _ _)
      have hv0 := hv v (List.mem_cons_self _ _)
      have hih := ih vt (by simpa using hlen)
        (fun u hu => hw u (List.mem_cons_of_mem _ hu))
        (fun u hu => hv u (List.mem_cons_of_mem _ hu))
      simp only [List.zip_cons_cons, List.foldr_cons, List.sum_cons]
      constructor
      · have h1 : lo * w ≤ w * v := by nlinarith [hv0.1]
        nlinarith [hih.1]
      · have h1 : w * v ≤ hi * w := by nlinarith [hv0.2]
        nlinarith [hih.2]

/-! ## The claims -/

/-- Claim C1, corrected.  As stated — "idw at a query point coinciding with
exactly one observation returns that observation's value, ignoring all
other observations regardless of p" — the claim is false: a null value in
any OTHER observation still poisons the sum (see
`claim_C1_counterexample`).  Amended: when the query point coincides with
exactly the `i`-th observation and no observation's value is null, `idw`
returns that observation's value, for every fallback weight function
(hence regardless of `p`). -/
theorem claim_C1 (wfun : ℚ → ℚ) (data : List Obs) (x y : ℚ) (i : ℕ)
    (hi : i < data.length)
    (h0 : distSq x y (data.getD i default) = 0)
    (huniq : ∀ j, j < data.length → j ≠ i → distSq x y (data.getD j default) ≠ 0)
    (hval : ∀ o ∈ data, o.value ≠ none) :
    idw data x y wfun = (data.getD i default).value := by
  induction data generalizing i with
  | nil => simp at hi
  | cons o t ih =>
    cases i with
    | zero =>
      rw [List.getD_cons_zero] at h0 ⊢
      have hztail : ∀ z ∈ (t.map (distSq x y)).map fun d => if d = 0 then (1 : ℚ) else 0, z = 0 := by
        intro z hz
        rw [List.map_map] at hz
        obtain ⟨u, hu, hz⟩ := List.mem_map.mp hz
        obtain ⟨⟨k, hk⟩, hku⟩ := List.mem_iff_get.mp hu
        have hne : distSq x y u ≠ 0 := by
          have := huniq (k + 1) (by simpa using Nat.succ_lt_succ hk) (by omega)
          rw [List.getD_cons_succ] at this
          rwa [List.getD_eq_get _ _ hk, hku] at this
        simp only [Function.comp, if_neg hne] at hz
        exact hz.symm
      have hsumtail : ((t.map (distSq x y)).map fun d => if d = 0 then (1 : ℚ) else 0).sum = 0 :=
        List.sum_eq_zero hztail
      have hzw : (((o :: t).map (distSq x y)).map fun d => if d = 0 then (1 : ℚ) else 0).sum = 1 := by
        simp only [List.map_cons, List.sum_cons, if_pos h0, hsumtail]
        norm_num
      obtain ⟨v, hv⟩ := Option.ne_none_iff_exists'.mp (hval o (List.mem_cons_self _ _))
      have hnum : sumProd (((o :: t).map (distSq x y)).map fun d => if d = 0 then (1 : ℚ) else 0)
          ((o :: t).map Obs.value) = some v := by
        simp only [List.map_cons, if_pos h0, hv, sumProd_cons]
        rw [sumProd_zero_weights _ _ hztail (by simp)
          (fun hc => by
            obtain ⟨u, hu, hcu⟩ := List.mem_map.mp hc
            exact hval u (List.mem_cons_of_mem _ hu) hcu)]
        norm_num
      have hne2 : (((o :: t).map (distSq x y)).map fun d => if d = 0 then (1 : ℚ) else 0).sum ≠ 0 := by
        rw [hzw]
        norm_num
      rw [idw_zero_branch_eq _ _ _ wfun hne2, hnum, hzw, hv]
      simp
    | succ j =>
      have hlen : j < t.length := by simpa using Nat.lt_of_succ_lt_succ hi
      have hne0 : distSq x y o ≠ 0 := by
        have := huniq 0 (by simp) (by omega)
        rwa [List.getD_cons_zero] at this
      have hz : ∃ u ∈ t, distSq x y u = 0 := by
        refine ⟨t.getD j default, ?_, ?_⟩
        · rw [List.getD_eq_get _ _ hlen]
          exact List.get_mem _ _ _
        rw [List.getD_cons_succ] at h0
        exact h0
      rw [idw_cons_skip wfun hne0 (hval o (List.mem_cons_self _ _)) hz]
      rw [List.getD_cons_succ]
      exact ih j hlen (by rwa [List.getD_cons_succ] at h0)
        (fun k hk hkj => by
          have := huniq (k + 1) (by simpa using Nat.succ_lt_succ hk) (by omega)
          rwa [List.getD_cons_succ] at this)
        (fun u hu => hval u (List.mem_cons_of_mem _ hu))

/-- Witness for claim C1 at a concrete input: the query point sits exactly
on the first of two stations and no value is null, so `idw` returns `7`. -/
theorem claim_C1_witness :
    idw [⟨1, 2, some 7⟩, ⟨3, 4, some 9⟩] 1 2 (fun s => 1 / s) = some 7 :=
  claim_C1 (fun s => 1 / s) [⟨1, 2, some 7⟩, ⟨3, 4, some 9⟩] 1 2 0 (by norm_num)
    (by norm_num [distSq])
    (by
      intro j hj hj0
      have hj1 : j = 1 := by simp at hj; omega
      subst hj1
      norm_num [distSq])
    (by
      intro o ho
      rcases List.mem_cons.mp ho with h | h
      · rw [h]; simp
      · rcases List.mem_cons.mp h with h | h
        · rw [h]; simp
        · simp at h)

/-- Counterexample to claim C1 as stated: the query point coincides with
exactly the first observation (value `10`), but because the second,
non-coincident observation has a null value, `idw` returns `NaN` (`none`)
instead of `10` — the other observations are not ignored. -/
theorem claim_C1_counterexample :
    idw dataC1 0 0 (fun s => 1 / s) = none ∧
    idw dataC1 0 0 (fun s => 1 / s) ≠ (dataC1.getD 0 default).value ∧
    (dataC1.getD 0 default).value = some 10 ∧
    distSq 0 0 (dataC1.getD 0 default) = 0 ∧
    distSq 0 0 (dataC1.getD 1 default) ≠ 0 := by
  have hnone : idw dataC1 0 0 (fun s => 1 / s) = none := by
    norm_num [idw, dataC1, distSq, sumProd]
  refine ⟨hnone, ?_, ?_, ?_, ?_⟩
  · rw [hnone]
    simp [dataC1]
  · norm_num [dataC1]
  · norm_num [dataC1, distSq]
  · norm_num [dataC1, distSq]


/-- Claim C2, corrected.  As stated the claim admits "arbitrary
whitespace/punctuation" between the two 2-digit groups, but the pattern
`\\s*(\\d{2})\\s*(\\d{2})\\s*.?\\s*` only allows whitespace there: a
punctuation-separated pair such as `"52.10"` yields no value at all (see
`claim_C2_counterexample`).  Also, because each match greedily consumes
one character after the minutes group, consecutive pairs separated by
whitespace alone merge; pairs separated by `", "` do parse.  Amended
contract: (a) any sequence of pairs of 2-digit groups, each pair
whitespace-separated inside and joined by `", "`, parses to
`deg + min/60` per pair in source order; (b) text containing no digit
yields the empty sequence, not an error. -/
theorem claim_C2 :
    (∀ ps : List (ℕ × ℕ), (∀ p ∈ ps, p.1 < 100 ∧ p.2 < 100) →
      degmin_to_decdeg (String.mk (renderPairs ps)) =
        ps.map fun p => (p.1 : ℚ) + (p.2 : ℚ) / 60) ∧
    (∀ s : String, (∀ c ∈ s.data, isDigitC c = false) → degmin_to_decdeg s = []) := by
  constructor
  · intro ps hb
    unfold degmin_to_decdeg
    rw [show (String.mk (renderPairs ps)).data = renderPairs ps from rfl]
    rw [findPairs_renderPairs ps hb]
  · intro s hs
    unfold degmin_to_decdeg
    rw [findPairs_no_digit hs]
    rfl

/-- Witness for claim C2 at concrete inputs: `"52 10, 04 05"` parses to
the two decimal degrees, and a digit-free string parses to `[]`. -/
theorem claim_C2_witness :
    degmin_to_decdeg (String.mk (renderPairs [(52, 10), (4, 5)])) =
      [52 + 10 / 60, 4 + 5 / 60] ∧
    degmin_to_decdeg "geen coord." = [] := by
  constructor
  · rw [claim_C2.1 [(52, 10), (4, 5)] (by norm_num)]
    norm_num
  · exact claim_C2.2 "geen coord." (by decide)

/-- Counterexample to claim C2 as stated: the pair `"52.10"` — two
2-digit groups separated by punctuation — parses to the empty sequence,
not to `[52 + 10/60]`. -/
theorem claim_C2_counterexample :
    degmin_to_decdeg "52.10" = [] ∧ degmin_to_decdeg "52.10" ≠ [52 + 10 / 60] := by
  have h : findPairs "52.10".data = [] := by decide
  unfold degmin_to_decdeg
  rw [h]
  simp

/-- Claim C3, corrected.  The claim says null values are excluded from the
weighting and that the result is undefined exactly when the used
observations have no non-null value.  In the code the weights multiply
the raw value column and `0 * NaN = NaN`, so a single null value in ANY
observation (used or not) makes the numerator `NaN` (see
`claim_C3_counterexample`).  Amended: for every fallback weight function
positive on positive arguments, `idw` is undefined (`none`) iff the
observation list is empty or SOME observation's value is null; nulls are
surfaced (never treated as zero) but not excluded. -/
theorem claim_C3 (wfun : ℚ → ℚ) (hw : ∀ s : ℚ, 0 < s → 0 < wfun s)
    (data : List Obs) (x y : ℚ) :
    idw data x y wfun = none ↔ data = [] ∨ ∃ o ∈ data, o.value = none := by
  by_cases hz : ((data.map (distSq x y)).map fun d => if d = 0 then (1 : ℚ) else 0).sum = 0
  · by_cases hdata : data = []
    · subst hdata
      simp [idw]
    · have hnonneg : ∀ z ∈ (data.map (distSq x y)).map fun d => if d = 0 then (1 : ℚ) else 0, 0 ≤ z := by
        intro z hzz
        obtain ⟨d, -, hd⟩ := List.mem_map.mp hzz
        subst hd
        split
        · norm_num
        · norm_num
      have hpos : ∀ d ∈ data.map (distSq x y), 0 < d := by
        intro d hd
        have hz0 : (if d = 0 then (1 : ℚ) else 0) = 0 :=
          list_sum_zero_all_zero _ hnonneg hz _ (List.mem_map_of_mem _ hd)
        have hdne : d ≠ 0 := by
          intro hc
          rw [if_pos hc] at hz0
          norm_num at hz0
        obtain ⟨o, -, hdo⟩ := List.mem_map.mp hd
        have hge := distSq_nonneg x y o
        rw [hdo] at hge
        exact lt_of_le_of_ne hge (Ne.symm hdne)
      have hwpos : ∀ w ∈ (data.map (distSq x y)).map wfun, 0 < w := by
        intro w hw2
        obtain ⟨d, hd, hdw⟩ := List.mem_map.mp hw2
        subst hdw
        exact hw d (hpos d hd)
      have hsum : ((data.map (distSq x y)).map wfun).sum ≠ 0 := by
        apply ne_of_gt
        apply list_sum_pos _ hwpos
        intro hc
        exact hdata (List.map_eq_nil.mp (List.map_eq_nil.mp hc))
      rw [idw_pos_branch_eq data x y wfun hz, if_neg hsum]
      rw [Option.map_eq_none', sumProd_none_iff _ _ (by simp)]
      simp only [List.mem_map]
      constructor
      · rintro ⟨o, ho, hv⟩
        exact Or.inr ⟨o, ho, hv⟩
      · rintro (hc | ⟨o, ho, hv⟩)
        · exact absurd hc hdata
        · exact ⟨o, ho, hv⟩
  · have hdata : data ≠ [] := by
      intro hc
      subst hc
      simp at hz
    rw [idw_zero_branch_eq data x y wfun hz]
    rw [Option.map_eq_none', sumProd_none_iff _ _ (by simp)]
    simp only [List.mem_map]
    constructor
    · rintro ⟨o, ho, hv⟩
      exact Or.inr ⟨o, ho, hv⟩
    · rintro (hc | ⟨o, ho, hv⟩)
      · exact absurd hc hdata
      · exact ⟨o, ho, hv⟩

/-- Witness for claim C3 at a concrete input: a single station with a
non-null value gives a defined estimate. -/
theorem claim_C3_witness : idw [⟨0, 0, some 5⟩] 3 4 (fun _ => 1) ≠ none := by
  have h := claim_C3 (fun _ => 1) (fun s _ => by norm_num) [⟨0, 0, some 5⟩] 3 4
  intro hc
  rcases h.mp hc with h1 | ⟨o, ho, hv⟩
  · simp at h1
  · rcases List.mem_singleton.mp ho with rfl
    simp at hv

/-- Counterexample to claim C3 as stated: station 0 (value `10`) and
station 1 (null) are both at positive distance from the query point, so
both are "used"; a non-null value exists among them, yet the estimate is
`NaN` (`none`) — the null was not excluded from the weighting.  The
weight function models `p = 2`. -/
theorem claim_C3_counterexample :
    idw dataC3 2 0 (fun s => 1 / s) = none ∧
    (dataC3.getD 0 default).value = some 10 ∧
    distSq 2 0 (dataC3.getD 0 default) ≠ 0 ∧
    distSq 2 0 (dataC3.getD 1 default) ≠ 0 ∧
    dataC3.length = 2 := by
  refine ⟨?_, ?_, ?_, ?_, ?_⟩
  · norm_num [idw, dataC3, distSq, sumProd]
  · norm_num [dataC3]
  · norm_num [dataC3, distSq]
  · norm_num [dataC3, distSq]
  · norm_num [dataC3]


/-- Claim C4, corrected.  As stated the matcher "always succeeds" on a
non-empty catalog, but the scan starts from `maxsim = 0` and `maxind = -1`
and only updates on a strictly greater score, so when every similarity
score is exactly `0` the sentinel survives and the subsequent
`coords.loc[-1]` lookup fails (see `claim_C4_counterexample`).  Amended:
whenever at least one catalog entry has a strictly positive similarity
score, the matcher succeeds and returns the entry with the greatest
score, the first such entry on ties, with no score threshold beyond
positivity. -/
theorem claim_C4 (name : String) (names : List String)
    (h : ∃ nm ∈ names, 0 < ratio name nm) :
    ∃ k, bestIndex name names = some k ∧ k < names.length ∧
      (∀ j, j < names.length → ratio name (names.getD j "") ≤ ratio name (names.getD k "")) ∧
      ∀ j, j < k → ratio name (names.getD j "") < ratio name (names.getD k "") := by
  obtain ⟨nm, hmem, hpos⟩ := h
  obtain ⟨⟨jn, hjlt⟩, hjx⟩ := List.mem_iff_get.mp hmem
  have hj : ∃ j, j < names.length ∧ (0 : ℚ) < ratio name (names.getD j "") := by
    refine ⟨jn, hjlt, ?_⟩
    rw [List.getD_eq_get _ _ hjlt, hjx]
    exact hpos
  obtain ⟨k, hk, heq, hmax, hfirst, -⟩ := bestAux_improve name names 0 none 0 hj
  refine ⟨k, ?_, hk, hmax, hfirst⟩
  unfold bestIndex
  rw [heq]
  simp

/-- Witness for claim C4 at a concrete input: a catalog entry equal to
the measurement name scores `1 > 0`, so the matcher selects it. -/
theorem claim_C4_witness : bestIndex "De Bilt" ["De Bilt"] = some 0 := by
  have hr : ratio "De Bilt" "De Bilt" = 1 := by
    have hM : matchTotal "De Bilt".data "De Bilt".data 14 0 7 0 7 = 7 := by decide
    have h7 : "De Bilt".data.length = 7 := by decide
    rw [ratio.eq_def, h7]
    norm_num [hM]
  obtain ⟨k, hk1, hk2, -, -⟩ := claim_C4 "De Bilt" ["De Bilt"]
    ⟨"De Bilt", by simp, by rw [hr]; norm_num⟩
  have hk0 : k = 0 := by simp at hk2; omega
  subst hk0
  exact hk1

/-- Counterexample to claim C4 as stated: the catalog `["bbb"]` is
non-empty, but the name `"aaa"` shares no character with it, every score
is `0`, and the matcher fails (`none`, modelling the `loc[-1]` KeyError)
instead of returning some catalog entry. -/
theorem claim_C4_counterexample :
    bestIndex "aaa" ["bbb"] = none ∧ (["bbb"] : List String) ≠ [] := by
  constructor
  · have hr : ratio "aaa" "bbb" = 0 := by
      have hM : matchTotal "aaa".data "bbb".data 6 0 3 0 3 = 0 := by decide
      have h3 : "aaa".data.length = 3 := by decide
      have h3b : "bbb".data.length = 3 := by decide
      rw [ratio.eq_def, h3, h3b]
      norm_num [hM]
    simp only [bestIndex, bestAux, hr]
    norm_num
  · simp

/-- Claim C5, confirmed (for every resolution `n ≥ 2`; the source
instantiates `n = 100`; `n ≤ 1` is degenerate for `np.linspace` and
excluded by the spec's "inclusive of both ends").  `linspace` produces
`n` evenly spaced coordinates from one box end to the other inclusive,
and the sampled matrix is `n × n` with
`matrix[i][j] = impute x[j] y[i]` exactly. -/
theorem claim_C5 (impute : ℚ → ℚ → Option ℚ) (minx maxx miny maxy : ℚ)
    (n : ℕ) (hn : 2 ≤ n) : gridSpec impute minx maxx miny maxy n := by
  have hc : ((n - 1 : ℕ) : ℚ) = (n : ℚ) - 1 := by
    rw [Nat.cast_sub (by omega)]
    norm_num
  have hne : ((n : ℚ) - 1) ≠ 0 := by
    have h2 : (2 : ℚ) ≤ (n : ℚ) := by exact_mod_cast hn
    intro hcon
    rw [sub_eq_zero] at hcon
    rw [hcon] at h2
    norm_num at h2
  have hlast : ∀ lo hi : ℚ, (linspace lo hi n).get? (n - 1) = some hi := by
    intro lo hi
    rw [linspace_get? _ _ (by omega : n - 1 < n), hc]
    congr 1
    field_simp
  refine ⟨linspace_length _ _ _, linspace_length _ _ _, ?_, ?_, ?_, ?_, ?_, ?_, ?_, ?_, ?_⟩
  · intro j hj
    exact linspace_get? _ _ hj
  · intro i hi
    exact linspace_get? _ _ hi
  · rw [linspace_get? _ _ (by omega : 0 < n)]
    norm_num
  · exact hlast minx maxx
  · rw [linspace_get? _ _ (by omega : 0 < n)]
    norm_num
  · exact hlast miny maxy
  · unfold contourGrid
    rw [List.length_map, linspace_length]
  · intro i hi
    unfold contourGrid
    rw [List.get?_map, linspace_get? _ _ hi]
    exact ⟨_, rfl, by rw [List.length_map, linspace_length]⟩
  · intro i j hi hj
    unfold contourGrid
    rw [List.get?_map, linspace_get? _ _ hi]
    rw [Option.map_some', Option.some_bind]
    rw [List.get?_map, linspace_get? _ _ hj]
    rw [Option.map_some']

/-- Witness for claim C5 at a concrete input: resolution `2` over the
unit box with a concrete imputation function. -/
theorem claim_C5_witness :
    2 ≤ 2 ∧ gridSpec (fun xv yv => some (xv + yv)) 0 1 0 1 2 :=
  ⟨by norm_num, claim_C5 (fun xv yv => some (xv + yv)) 0 1 0 1 2 (by norm_num)⟩

/-- Claim C6, confirmed: the weighted numerator `sum(weights*values)` of
`idw` divided by `sum(weights)`, with positive weights, stays within any
interval containing all values — in particular within
`[min(value), max(value)]`; no extrapolation beyond the observed range. -/
theorem claim_C6 (ws vs : List ℚ) (total lo hi : ℚ)
    (hlen : ws.length = vs.length) (hne : ws ≠ [])
    (hpos : ∀ w ∈ ws, 0 < w) (hbound : ∀ v ∈ vs, lo ≤ v ∧ v ≤ hi)
    (hsum : sumProd ws (vs.map some) = some total) :
    lo ≤ total / ws.sum ∧ total / ws.sum ≤ hi := by
  rw [sumProd_map_some] at hsum
  have htot : total = (ws.zip vs).foldr (fun p t => p.1 * p.2 + t) 0 := by
    exact (Option.some.injEq _ _).mp hsum.symm
  have hbounds := dot_bounds lo hi ws vs hlen (fun w hw => le_of_lt (hpos w hw)) hbound
  have hspos : 0 < ws.sum := list_sum_pos ws hpos hne
  constructor
  · rw [le_div_iff hspos]
    rw [htot]
    linarith [hbounds.1]
  · rw [div_le_iff hspos]
    rw [htot]
    linarith [hbounds.2]

/-- Witness for claim C6 at a concrete input: equal weights on values `8`
and `12` give `10`, inside `[8, 12]` (the spec's own scenario). -/
theorem claim_C6_witness :
    (8 : ℚ) ≤ 20 / ([(1 : ℚ), 1].sum) ∧ 20 / ([(1 : ℚ), 1].sum) ≤ 12 := by
  refine claim_C6 [(1 : ℚ), 1] [(8 : ℚ), 12] 20 8 12 rfl (by simp) ?_ ?_ ?_
  · intro w hw
    rcases List.mem_cons.mp hw with h | h
    · rw [h]; norm_num
    · rcases List.mem_cons.mp h with h | h
      · rw [h]; norm_num
      · simp at h
  · intro v hv
    rcases List.mem_cons.mp hv with h | h
    · rw [h]; norm_num
    · rcases List.mem_cons.mp h with h | h
      · rw [h]; norm_num
      · simp at h
  · norm_num [sumProd]

/-- Claim C7, confirmed: the alias table is applied before similarity
scoring, so matching the measurement name `"Den Helder"` is literally
matching the catalog name `"De Kooy"` for EVERY catalog; and in the
concrete catalog `["Den Helder", "De Kooy"]`, where the unaliased name
has strictly higher raw similarity to entry 0, the matcher still selects
the `"De Kooy"` entry. -/
theorem claim_C7 :
    (∀ names : List String, matchStation "Den Helder" names = bestIndex "De Kooy" names) ∧
    matchStation "Den Helder" ["Den Helder", "De Kooy"] = some 1 ∧
    ratio "Den Helder" "De Kooy" < ratio "Den Helder" "Den Helder" := by
  have halias : aliasName "Den Helder" = "De Kooy" := by decide
  have hr1 : ratio "De Kooy" "Den Helder" = 6 / 17 := by
    have hM : matchTotal "De Kooy".data "Den Helder".data 17 0 7 0 10 = 3 := by decide
    have h7 : "De Kooy".data.length = 7 := by decide
    have h10 : "Den Helder".data.length = 10 := by decide
    rw [ratio.eq_def, h7, h10]
    norm_num [hM]
  have hr2 : ratio "De Kooy" "De Kooy" = 1 := by
    have hM : matchTotal "De Kooy".data "De Kooy".data 14 0 7 0 7 = 7 := by decide
    have h7 : "De Kooy".data.length = 7 := by decide
    rw [ratio.eq_def, h7]
    norm_num [hM]
  refine ⟨?_, ?_, ?_⟩
  · intro names
    unfold matchStation
    rw [halias]
  · unfold matchStation
    rw [halias]
    simp only [bestIndex, bestAux, hr1, hr2]
    norm_num
  · have hr3 : ratio "Den Helder" "De Kooy" = 6 / 17 := by
      have hM : matchTotal "Den Helder".data "De Kooy".data 17 0 10 0 7 = 3 := by decide
      have h7 : "De Kooy".data.length = 7 := by decide
      have h10 : "Den Helder".data.length = 10 := by decide
      rw [ratio.eq_def, h7, h10]
      norm_num [hM]
    have hr4 : ratio "Den Helder" "Den Helder" = 1 := by
      have hM : matchTotal "Den Helder".data "Den Helder".data 20 0 10 0 10 = 10 := by decide
      have h10 : "Den Helder".data.length = 10 := by decide
      rw [ratio.eq_def, h10]
      norm_num [hM]
    rw [hr3, hr4]
    norm_num


/-- Claim C8, corrected.  As stated a row with an unparseable coordinate
is warned about and excluded; in the code `degmin_to_decdeg(...)[0]`
raises an uncaught IndexError on the empty parse, so one bad row aborts
the whole catalog build instead (see `claim_C8_counterexample`).
Amended: whenever some row's latitude or longitude field parses to the
empty sequence, the whole build fails. -/
theorem claim_C8 (rows : List RawRow)
    (h : ∃ r ∈ rows, degmin_to_decdeg r.latText = [] ∨ degmin_to_decdeg r.lonText = []) :
    coordtable rows = none := by
  apply coordtable_none
  obtain ⟨r, hr, hc⟩ := h
  refine ⟨r, hr, ?_⟩
  unfold convertRow
  rcases hc with hc | hc
  · rw [hc]
    rfl
  · rw [hc]
    cases (degmin_to_decdeg r.latText).head? with
    | none => rfl
    | some la => rfl

/-- Witness for claim C8 at a concrete input: a row whose longitude field
has no digits aborts the build. -/
theorem claim_C8_witness :
    coordtable [⟨"210", "Valkenburg", "AWS", "52 11", "geen", none⟩] = none :=
  claim_C8 [⟨"210", "Valkenburg", "AWS", "52 11", "geen", none⟩]
    ⟨⟨"210", "Valkenburg", "AWS", "52 11", "geen", none⟩, by simp,
      Or.inr (by
        unfold degmin_to_decdeg
        rw [show findPairs "geen".data = [] from by decide]
        rfl)⟩

/-- Counterexample to claim C8 as stated: a single row with an
unparseable latitude makes `coordtable` fail outright (`none`, the
IndexError) instead of producing the catalog without that station
(`some []`). -/
theorem claim_C8_counterexample :
    coordtable [badRowC8] = none ∧ coordtable [badRowC8] ≠ some [] := by
  have h : coordtable [badRowC8] = none := by
    unfold coordtable convertRow badRowC8
    rw [show degmin_to_decdeg "unknown" = [] from by
      unfold degmin_to_decdeg
      rw [show findPairs "unknown".data = [] from by decide]
      rfl]
    rfl
  exact ⟨h, by rw [h]; simp⟩

/-- Claim C9, corrected.  The build enforces neither the latitude range
`[-90, 90]` nor id uniqueness: a `"95 10"` latitude text yields `95.16…`
and duplicate ids are kept (see `claim_C9_counterexample`).  Amended:
every coordinate a successful build produces is of the form
`deg + min/60` with two-digit groups, hence lies in `[0, 99 + 99/60]`;
no id uniqueness holds. -/
theorem claim_C9 (rows : List RawRow) (cat : List Station)
    (h : coordtable rows = some cat) :
    ∀ s ∈ cat, 0 ≤ s.lat ∧ s.lat ≤ 99 + 99 / 60 ∧ 0 ≤ s.lon ∧ s.lon ≤ 99 + 99 / 60 := by
  intro s hs
  obtain ⟨r, hr, hconv⟩ := coordtable_mem rows cat h s hs
  unfold convertRow at hconv
  cases h1 : (degmin_to_decdeg r.latText).head? with
  | none =>
    rw [h1] at hconv
    simp at hconv
  | some la =>
    cases h2 : (degmin_to_decdeg r.lonText).head? with
    | none =>
      rw [h1, h2] at hconv
      simp at hconv
    | some lo =>
      rw [h1, h2] at hconv
      simp only [Option.some.injEq] at hconv
      have hla : la ∈ degmin_to_decdeg r.latText := by
        cases hd : degmin_to_decdeg r.latText with
        | nil => rw [hd] at h1; simp at h1
        | cons a t =>
          rw [hd] at h1
          simp at h1
          rw [h1]
          exact List.mem_cons_self _ _
      have hlo : lo ∈ degmin_to_decdeg r.lonText := by
        cases hd : degmin_to_decdeg r.lonText with
        | nil => rw [hd] at h2; simp at h2
        | cons a t =>
          rw [hd] at h2
          simp at h2
          rw [h2]
          exact List.mem_cons_self _ _
      have hba := degmin_mem_bounds hla
      have hbo := degmin_mem_bounds hlo
      rw [← hconv]
      exact ⟨hba.1, hba.2, hbo.1, hbo.2⟩

/-- Witness for claim C9 at a concrete input: a single well-formed row
builds a station whose coordinates satisfy the amended bounds. -/
theorem claim_C9_witness :
    0 ≤ (52 + 6 / 60 : ℚ) ∧ (52 + 6 / 60 : ℚ) ≤ 99 + 99 / 60 ∧
    0 ≤ (5 + 11 / 60 : ℚ) ∧ (5 + 11 / 60 : ℚ) ≤ 99 + 99 / 60 := by
  have hct : coordtable [⟨"260", "De Bilt", "AWS", "52 06", "05 11", none⟩] =
      some [⟨"260", "De Bilt", "AWS", 52 + 6 / 60, 5 + 11 / 60, none⟩] := by
    unfold coordtable convertRow
    rw [show degmin_to_decdeg "52 06" = [52 + 6 / 60] from by
      unfold degmin_to_decdeg
      rw [show findPairs "52 06".data = [(52, 6)] from by decide]
      norm_num]
    rw [show degmin_to_decdeg "05 11" = [5 + 11 / 60] from by
      unfold degmin_to_decdeg
      rw [show findPairs "05 11".data = [(5, 11)] from by decide]
      norm_num]
    rfl
  simpa using claim_C9 _ _ hct
    ⟨"260", "De Bilt", "AWS", 52 + 6 / 60, 5 + 11 / 60, none⟩ (List.mem_singleton.mpr rfl)

/-- Counterexample to claim C9 as stated: the build accepts a latitude of
`95 + 10/60 > 90` and keeps two stations with the same id. -/
theorem claim_C9_counterexample :
    coordtable rowsC9 =
      some [⟨"001", "A", "AWS", 95 + 10 / 60, 5 + 30 / 60, none⟩,
        ⟨"001", "B", "AWS", 52 + 10 / 60, 5 + 30 / 60, none⟩] ∧
    (90 : ℚ) < 95 + 10 / 60 ∧
    (Station.mk "001" "A" "AWS" (95 + 10 / 60) (5 + 30 / 60) none).sid =
      (Station.mk "001" "B" "AWS" (52 + 10 / 60) (5 + 30 / 60) none).sid := by
  refine ⟨?_, by norm_num, rfl⟩
  have h95 : degmin_to_decdeg "95 10" = [95 + 10 / 60] := by
    unfold degmin_to_decdeg
    rw [show findPairs "95 10".data = [(95, 10)] from by decide]
    norm_num
  have h52 : degmin_to_decdeg "52 10" = [52 + 10 / 60] := by
    unfold degmin_to_decdeg
    rw [show findPairs "52 10".data = [(52, 10)] from by decide]
    norm_num
  have h05 : degmin_to_decdeg "05 30" = [5 + 30 / 60] := by
    unfold degmin_to_decdeg
    rw [show findPairs "05 30".data = [(5, 30)] from by decide]
    norm_num
  simp only [rowsC9, coordtable, convertRow, h95, h52, h05, List.head?_cons]

/-- Claim C10, confirmed: the alias pre-substitution fires only on exact
character-for-character equality with a key of
`{"Den Helder": "De Kooy", "Eelde": "Groningen"}`; every other name —
including case variants, padded variants and strict superstrings of a
key — passes through unchanged. -/
theorem claim_C10 :
    aliasName "Den Helder" = "De Kooy" ∧ aliasName "Eelde" = "Groningen" ∧
    ∀ s : String, s ≠ "Den Helder" → s ≠ "Eelde" → aliasName s = s := by
  refine ⟨by decide, by decide, ?_⟩
  intro s h1 h2
  unfold aliasName
  rw [if_neg h1, if_neg h2]

/-- Witness for claim C10 at concrete inputs: a lowercase variant, a
padded variant and a superstring of an alias key are all unchanged. -/
theorem claim_C10_witness :
    aliasName "den helder" = "den helder" ∧
    aliasName "Den Helder " = "Den Helder " ∧
    aliasName "Eeldeplaats" = "Eeldeplaats" :=
  ⟨claim_C10.2.2 "den helder" (by decide) (by decide),
   claim_C10.2.2 "Den Helder " (by decide) (by decide),
   claim_C10.2.2 "Eeldeplaats" (by decide) (by decide)⟩

end Knmi
